import Mathlib

/-!
Shallow embedding of the VectorCode synchronization core
(`src/vectorcode/common.py`, `src/vectorcode/subcommands/update.py`) and
proofs of the specification claims about it.

Machine integers are modelled as `Nat` with explicit reduction modulo `2^32`
where the Python code relies on 32-bit arithmetic (inside `hashlib.sha256`,
which we embed concretely as the FIPS 180-4 SHA-256 function).
-/

namespace VectorCode

/-! ### SHA-256 (embedding of the `hashlib.sha256` collaborator used by
`get_collection_name`) -/

/-- Reduction of a `Nat` to a 32-bit word. -/
def w32 (x : Nat) : Nat := x % 4294967296

/-- 32-bit right rotation. -/
def rotr (n x : Nat) : Nat := w32 ((x >>> n) ||| (x <<< (32 - n)))

/-- 32-bit bitwise complement. -/
def shaNot (x : Nat) : Nat := x ^^^ 4294967295

def shaCh (x y z : Nat) : Nat := (x &&& y) ^^^ (shaNot x &&& z)

def shaMaj (x y z : Nat) : Nat := (x &&& y) ^^^ (x &&& z) ^^^ (y &&& z)

def bigSigma0 (x : Nat) : Nat := rotr 2 x ^^^ rotr 13 x ^^^ rotr 22 x

def bigSigma1 (x : Nat) : Nat := rotr 6 x ^^^ rotr 11 x ^^^ rotr 25 x

def smallSigma0 (x : Nat) : Nat := rotr 7 x ^^^ rotr 18 x ^^^ (x >>> 3)

def smallSigma1 (x : Nat) : Nat := rotr 17 x ^^^ rotr 19 x ^^^ (x >>> 10)

/-- The SHA-256 round constants. -/
def shaK : List Nat :=
  [1116352408, 1899447441, 3049323471, 3921009573, 961987163,
   1508970993, 2453635748, 2870763221, 3624381080, 310598401,
   607225278, 1426881987, 1925078388, 2162078206, 2614888103,
   3248222580, 3835390401, 4022224774, 264347078, 604807628,
   770255983, 1249150122, 1555081692, 1996064986, 2554220882,
   2821834349, 2952996808, 3210313671, 3336571891, 3584528711,
   113926993, 338241895, 666307205, 773529912, 1294757372,
   1396182291, 1695183700, 1986661051, 2177026350, 2456956037,
   2730485921, 2820302411, 3259730800, 3345764771, 3516065817,
   3600352804, 4094571909, 275423344, 430227734, 506948616,
   659060556, 883997877, 958139571, 1322822218, 1537002063,
   1747873779, 1955562222, 2024104815, 2227730452, 2361852424,
   2428436474, 2756734187, 3204031479, 3329325298]

/-- The eight 32-bit words of the running SHA-256 state. -/
structure Hash8 where
  a : Nat
  b : Nat
  c : Nat
  d : Nat
  e : Nat
  f : Nat
  g : Nat
  h : Nat
deriving DecidableEq

/-- The SHA-256 initial hash value. -/
def shaInit : Hash8 :=
  ⟨1779033703, 3144134277, 1013904242, 2773480762,
   1359893119, 2600822924, 528734635, 1541459225⟩

/-- Message padding: append `0x80`, zero bytes up to 56 mod 64, then the
bit length as 8 big-endian bytes. -/
def shaPad (msg : List Nat) : List Nat :=
  let len := msg.length
  let zeros := (119 - len % 64) % 64
  let bitLen := len * 8
  msg ++ [128] ++ List.replicate zeros 0 ++
    (List.range 8).map (fun i => (bitLen >>> (8 * (7 - i))) % 256)

/-- Big-endian 4-byte groups to 32-bit words. -/
def bytesToWords : List Nat → List Nat
  | b0 :: b1 :: b2 :: b3 :: rest =>
      (b0 * 16777216 + b1 * 65536 + b2 * 256 + b3) :: bytesToWords rest
  | _ => []

/-- Extend the 16-word message schedule by `rounds` further words. -/
def scheduleFrom (w : List Nat) : Nat → List Nat
  | 0 => w
  | r + 1 =>
      scheduleFrom
        (w ++ [w32 (smallSigma1 (w.getD (w.length - 2) 0) +
                    w.getD (w.length - 7) 0 +
                    smallSigma0 (w.getD (w.length - 15) 0) +
                    w.getD (w.length - 16) 0)]) r

/-- One SHA-256 compression round. -/
def compressRound (st : Hash8) (ki wi : Nat) : Hash8 :=
  let t1 := w32 (st.h + bigSigma1 st.e + shaCh st.e st.f st.g + ki + wi)
  let t2 := w32 (bigSigma0 st.a + shaMaj st.a st.b st.c)
  ⟨w32 (t1 + t2), st.a, st.b, st.c, w32 (st.d + t1), st.e, st.f, st.g⟩

/-- Compress one 64-byte block into the running state. -/
def compressBlock (st : Hash8) (block : List Nat) : Hash8 :=
  let ws := scheduleFrom (bytesToWords block) 48
  let fin := (shaK.zip ws).foldl (fun s p => compressRound s p.1 p.2) st
  ⟨w32 (st.a + fin.a), w32 (st.b + fin.b), w32 (st.c + fin.c), w32 (st.d + fin.d),
   w32 (st.e + fin.e), w32 (st.f + fin.f), w32 (st.g + fin.g), w32 (st.h + fin.h)⟩

/-- Split a byte list into 64-byte blocks (fuel-indexed to stay structural). -/
def toBlocks : Nat → List Nat → List (List Nat)
  | 0, _ => []
  | _, [] => []
  | fuel + 1, l => l.take 64 :: toBlocks fuel (l.drop 64)

/-- SHA-256 of a byte list, as the eight final state words. -/
def sha256Words (msg : List Nat) : Hash8 :=
  let padded := shaPad msg
  (toBlocks padded.length padded).foldl compressBlock shaInit

/-- Lower-case hex digit for a nibble. -/
def nibbleHex (n : Nat) : Char :=
  if n < 10 then Char.ofNat (48 + n) else Char.ofNat (87 + n)

/-- Eight hex characters of one 32-bit word, most significant nibble first. -/
def wordHexChars (x : Nat) : List Char :=
  (List.range 8).map (fun i => nibbleHex ((x >>> (4 * (7 - i))) % 16))

/-- The 64 hex characters of a final SHA-256 state. -/
def hash8Chars (st : Hash8) : List Char :=
  wordHexChars st.a ++ wordHexChars st.b ++ wordHexChars st.c ++ wordHexChars st.d ++
  wordHexChars st.e ++ wordHexChars st.f ++ wordHexChars st.g ++ wordHexChars st.h

/-- `hashlib.sha256(...).hexdigest()` on a byte list, as a character list. -/
def sha256HexChars (msg : List Nat) : List Char := hash8Chars (sha256Words msg)

/-- UTF-8 bytes of a string (`str.encode()` in the source). -/
def strBytes (s : String) : List Nat := s.toUTF8.toList.map UInt8.toNat

/-! ### Collection Identity Resolver (`common.py`) -/

/-- The ambient system identity and filesystem state that the Python code
reads from `os.environ`, `socket.gethostname`, `os.path` and `os.cpu_count`. -/
structure SysEnv where
  userEnv : Option String
  usernameEnv : Option String
  hostname : String
  absPath : String → String
  isFile : String → Bool

/-- `os.environ.get("USER", os.environ.get("USERNAME", "DEFAULT_USER"))`. -/
def pyUser (env : SysEnv) : String :=
  env.userEnv.getD (env.usernameEnv.getD "DEFAULT_USER")

/-- The string `f"\x7buser\x7d@\x7bhostname\x7d:\x7bfull_path\x7d"` hashed in
`get_collection_name`; `full_path` has already been normalized by
`expand_path(..., absolute=True)`, modelled by `env.absPath`. -/
def identityString (env : SysEnv) (full_path : String) : String :=
  pyUser env ++ "@" ++ env.hostname ++ ":" ++ env.absPath full_path

/-- `get_collection_name` of `common.py`: the first 63 hex characters of the
SHA-256 hexdigest of the identity string. -/
def get_collection_name (env : SysEnv) (full_path : String) : String :=
  ⟨(sha256HexChars (strBytes (identityString env full_path))).take 63⟩

/-! ### Metadata model

Chromadb collection metadata is a Python dict.  The values appearing in this
code base are strings (`path`, `hostname`, `created-by`, `username`,
`embedding_function`) and, for `embedding_params`, a string-keyed mapping;
we model a dict value as either of those two shapes. -/

inductive MetaVal where
  | str (s : String)
  | dict (d : List (String × String))
deriving DecidableEq

/-- Python truthiness of the metadata values we model: the empty string and
the empty dict are falsy. -/
def MetaVal.truthy : MetaVal → Bool
  | .str s => s ≠ ""
  | .dict d => d ≠ []

/-- A metadata dict: association list from keys to values. -/
abbrev Metadata : Type := List (String × MetaVal)

/-- `dict.get(k)`: first binding of `k`, if any. -/
def mget (m : Metadata) (k : String) : Option MetaVal :=
  (List.find? (fun p => p.1 == k) m).map Prod.snd

/-- `str(meta.get("path", ""))` used by `update`: the stored paths are
strings, and a missing key defaults to `""`. -/
def metaPath (m : Metadata) : String :=
  match mget m "path" with
  | some (.str s) => s
  | some (.dict _) => "\x7b...\x7d"
  | none => ""

/-- The slice of `Config` (from `cli_utils.py`) consumed by the functions
we embed. -/
structure Config where
  embedding_function : String
  embedding_params : List (String × String)
  project_root : String
  pipe : Bool
deriving DecidableEq

/-! ### Embedding-function registry (`get_embedding_function`) -/

/-- Opaque value standing for a constructed chromadb embedding function:
the attribute name it was resolved from and the parameters it was
instantiated with. -/
structure EmbFun where
  name : String
  params : List (String × String)
deriving DecidableEq

/-- The `chromadb.utils.embedding_functions` module, abstracted to the set
of attribute names it defines (`getattr` succeeds exactly on those). -/
structure EFRegistry where
  known : String → Bool

/-- `get_embedding_function` of `common.py`: resolve the configured name in
the registry and instantiate it with the configured params; on
`AttributeError` (unknown name) warn and fall back to
`SentenceTransformerEmbeddingFunction()`.  The second component records
whether the fallback warning was printed. -/
def get_embedding_function (reg : EFRegistry) (configs : Config) : EmbFun × Bool :=
  if reg.known configs.embedding_function then
    (⟨configs.embedding_function, configs.embedding_params⟩, false)
  else
    (⟨"SentenceTransformerEmbeddingFunction", []⟩, true)

/-! ### Vector store model and `get_collection` (`common.py`) -/

/-- A chromadb collection: its name, its collection-level metadata, and the
per-document metadata records it stores. -/
structure Collection where
  name : String
  metadata : Metadata
  docs : List Metadata
deriving DecidableEq

/-- The chromadb store: the collections held by the client, by name. -/
abbrev Store : Type := List Collection

/-- `client.get_collection` lookup by name. -/
def storeFind (store : Store) (name : String) : Option Collection :=
  List.find? (fun c => c.name == name) store

/-- The exceptions raised by `get_collection`: `ValueError` /
`InvalidCollectionException` when the collection is missing, `IndexError`
on an owner-metadata mismatch (hash collision). -/
inductive CollectionError where
  | notFound
  | collision
deriving DecidableEq

/-- The `collection_meta` dict stamped onto a newly created collection. -/
def collection_meta (env : SysEnv) (configs : Config) (full_path : String) : Metadata :=
  [("path", .str full_path),
   ("hostname", .str env.hostname),
   ("created-by", .str "VectorCode"),
   ("username", .str (pyUser env)),
   ("embedding_function", .str configs.embedding_function)]

/-- `collection.metadata.get("username") in (os.environ.get("USER"),
os.environ.get("USERNAME"), "DEFAULT_USER")`: a missing key (Python `None`)
matches an unset environment variable. -/
def usernameOk (env : SysEnv) (meta : Metadata) : Bool :=
  let v := mget meta "username"
  v == env.userEnv.map MetaVal.str || v == env.usernameEnv.map MetaVal.str ||
    v == some (MetaVal.str "DEFAULT_USER")

/-- The owner-metadata check of `get_collection`: true when the collection
was stamped by a different host, user, or creator. -/
def ownerMismatch (env : SysEnv) (meta : Metadata) : Bool :=
  !(mget meta "hostname" == some (MetaVal.str env.hostname)) ||
  !usernameOk env meta ||
  !(mget meta "created-by" == some (MetaVal.str "VectorCode"))

/-- `get_collection` of `common.py`.  Returns the (possibly extended) store
together with the outcome; an exception leaves the store as recorded in the
first component.  The embedding function obtained from
`get_embedding_function` is passed through to the chromadb client and does
not influence this control flow. -/
def get_collection (env : SysEnv) (store : Store) (configs : Config)
    (make_if_missing : Bool) : Store × Except CollectionError Collection :=
  let full_path := env.absPath configs.project_root
  let collection_name := get_collection_name env full_path
  let meta := collection_meta env configs full_path
  if !make_if_missing then
    match storeFind store collection_name with
    | some c => (store, .ok c)
    | none => (store, .error .notFound)
  else
    match storeFind store collection_name with
    | some collection =>
        if ownerMismatch env collection.metadata then (store, .error .collision)
        else (store, .ok collection)
    | none =>
        let collection : Collection := ⟨collection_name, meta, []⟩
        let store' := store ++ [collection]
        if ownerMismatch env collection.metadata then (store', .error .collision)
        else (store', .ok collection)

/-- Python truthiness of an optional metadata value (`None` is falsy). -/
def truthyOpt (o : Option MetaVal) : Bool := o.elim false MetaVal.truthy

/-- `verify_ef` of `common.py`.  First component: the returned boolean.
Second component: whether the parameter-compatibility warning was printed. -/
def verify_ef (collection : Collection) (configs : Config) : Bool × Bool :=
  let collection_ef := mget collection.metadata "embedding_function"
  let collection_ep := mget collection.metadata "embedding_params"
  if truthyOpt collection_ef &&
      !(collection_ef == some (MetaVal.str configs.embedding_function)) then
    (false, false)
  else if truthyOpt collection_ep &&
      !(collection_ep == some (MetaVal.dict configs.embedding_params)) then
    (true, true)
  else
    (true, false)

/-! ### The `update` subcommand (`subcommands/update.py`) -/

/-- The store operations `update` can issue, in trace order: the metadata
read-back, one per-file processing task (`chunked_add`), and the bulk
orphan delete. -/
inductive StoreOp where
  | getMeta
  | fileProcess (path : String)
  | delete (paths : List String)
deriving DecidableEq

/-- The `stats` dict of `update`. -/
structure SyncStats where
  add : Nat
  update : Nat
  removed : Nat
deriving DecidableEq

/-- The observable outcome of one `update` run: return code, final store,
trace of store operations, and the stats passed to `show_stats` (`none`
when the run failed before reporting). -/
structure UpdateRun where
  rc : Nat
  store : Store
  ops : List StoreOp
  stats : Option SyncStats
deriving DecidableEq

/-- The stored paths of a collection as `update` reads them back:
`str(meta.get("path", ""))` over the returned metadata records. -/
def storedPaths (c : Collection) : List String := c.docs.map metaPath

/-- The classification loop of `update`: partition the stored paths into
the `files` set (`os.path.isfile` true) and the `orphanes` set (false). -/
def classifyPaths (isFile : String → Bool) : List String → Finset String × Finset String
  | [] => (∅, ∅)
  | file :: rest =>
      let prev := classifyPaths isFile rest
      if isFile file then (insert file prev.1, prev.2) else (prev.1, insert file prev.2)

/-- Modelled from the spec: `chunked_add` (in `subcommands/vectorise.py`,
absent from the sources) increments `add` when the file had no prior chunks
and `update` otherwise, and never touches `removed`.  `hadPrior` is the
oracle for "had prior chunks". -/
def processFiles (hadPrior : String → Bool) (stats : SyncStats) : List String → SyncStats
  | [] => stats
  | f :: fs =>
      processFiles hadPrior
        (if hadPrior f then { stats with update := stats.update + 1 }
         else { stats with add := stats.add + 1 }) fs

/-- `collection.delete(where=\x7b"path": \x7b"$in": list(orphanes)\x7d\x7d)`:
remove the documents of the named collection whose path is orphaned. -/
def storeDelete (store : Store) (name : String) (paths : Finset String) : Store :=
  store.map fun c =>
    if c.name == name then
      { c with docs := c.docs.filter (fun m => !(decide (metaPath m ∈ paths))) }
    else c

/-- `update` of `subcommands/update.py`.

* `hadPrior` is the spec-modelled `chunked_add` stats oracle (see
  `processFiles`); the upserts `chunked_add` performs are abstracted as
  `StoreOp.fileProcess` trace entries because `vectorise.py` is absent
  from the sources.
* `cancelAfter = some k` models an `asyncio.CancelledError` delivered
  after `k` file tasks have completed; `none` models an uninterrupted run.
* The `metas is None` early-return of the source cannot arise here because
  the store model always returns the document list.
* Python set iteration order is unspecified; the model iterates the
  `files` set in sorted order. -/
def update (env : SysEnv) (hadPrior : String → Bool) (cancelAfter : Option Nat)
    (configs : Config) (store : Store) : UpdateRun :=
  match get_collection env store configs false with
  | (store1, .error _) => ⟨1, store1, [], none⟩
  | (store1, .ok collection) =>
    if !(verify_ef collection configs).1 then ⟨1, store1, [], none⟩
    else
      let files := (classifyPaths env.isFile (storedPaths collection)).1
      let orphanes := (classifyPaths env.isFile (storedPaths collection)).2
      let stats0 : SyncStats := ⟨0, 0, orphanes.card⟩
      let fileList := files.sort (· ≤ ·)
      match cancelAfter with
      | some k =>
          ⟨1, store1, .getMeta :: (fileList.take k).map .fileProcess, none⟩
      | none =>
          let stats1 := processFiles hadPrior stats0 fileList
          if orphanes.card ≠ 0 then
            ⟨0, storeDelete store1 collection.name orphanes,
             .getMeta :: fileList.map .fileProcess ++ [.delete (orphanes.sort (· ≤ ·))],
             some stats1⟩
          else
            ⟨0, store1, .getMeta :: fileList.map .fileProcess, some stats1⟩

/-! ### Chunking Engine

Modelled from the spec: the Chunking Engine (`chunked_add` and its chunker
in `subcommands/vectorise.py`) is absent from the sources.  Following §4.2
of the spec: `chunk_size <= 0` yields one chunk equal to the whole input;
otherwise consecutive windows of `chunk_size` units, with
`floor(chunk_size * overlap_ratio)` units of overlap between consecutive
windows (window starts advance by `chunk_size - overlap`), covering the
whole input, trailing windows clamped to the input length.  Text units are
characters; the float `overlap_ratio` is modelled as a rational. -/

/-- Modelled from the spec: `floor(chunk_size * overlap_ratio)`. -/
def chunkOverlap (size : Nat) (overlap_ratio : ℚ) : Nat :=
  (Int.floor ((size : ℚ) * overlap_ratio)).toNat

/-- Modelled from the spec: window starts advance by the chunk size minus
the overlap. -/
def chunkStep (size : Nat) (overlap_ratio : ℚ) : Nat :=
  size - chunkOverlap size overlap_ratio

/-- Number of windows with start strictly below `len` (starts `0, step,
2*step, ...`). -/
def numChunks (len step : Nat) : Nat := (len + step - 1) / step

/-- Modelled from the spec: the chunker (see the section header). -/
def chunk (text : List Char) (chunk_size : Int) (overlap_ratio : ℚ) : List (List Char) :=
  if chunk_size ≤ 0 then [text]
  else
    (List.range (numChunks text.length (chunkStep chunk_size.toNat overlap_ratio))).map
      (fun k => (text.drop (k * chunkStep chunk_size.toNat overlap_ratio)).take
        chunk_size.toNat)

/-! ### Helper lemmas -/

theorem length_wordHexChars (x : Nat) : (wordHexChars x).length = 8 := by
  simp [wordHexChars]

theorem length_sha256HexChars (msg : List Nat) : (sha256HexChars msg).length = 64 := by
  simp [sha256HexChars, hash8Chars, length_wordHexChars]

theorem string_append_left_cancel (a b c : String) (h : a ++ b = a ++ c) : b = c := by
  have hd : a.data ++ b.data = a.data ++ c.data := by
    have := congrArg String.data h
    simpa using this
  exact congrArg String.mk (List.append_cancel_left hd)

/-! ### Claims about the Collection Identity Resolver -/

/-- C2: `get_collection_name` returns the first 63 hex characters of the
SHA-256 hash of `"\x7buser\x7d@\x7bhostname\x7d:\x7babsolute_project_path\x7d"`;
it has length 63, two calls on the same (user, hostname, absolute path)
agree, and distinct absolute paths give distinct hash preimages (so the ids
differ unless SHA-256 itself collides, which happens only with negligible
probability). -/
theorem get_collection_name_spec (env : SysEnv) (p : String) :
    get_collection_name env p =
      String.mk ((sha256HexChars (strBytes (identityString env p))).take 63) ∧
    (get_collection_name env p).length = 63 ∧
    (∀ q, env.absPath p = env.absPath q →
      get_collection_name env p = get_collection_name env q) ∧
    (∀ q, env.absPath p ≠ env.absPath q →
      identityString env p ≠ identityString env q) := by
  refine ⟨rfl, ?_, ?_, ?_⟩
  · show (String.mk ((sha256HexChars (strBytes (identityString env p))).take 63)).length = 63
    simp [String.length, length_sha256HexChars]
  · intro q h
    unfold get_collection_name identityString
    rw [h]
  · intro q hne heq
    apply hne
    unfold identityString at heq
    exact string_append_left_cancel _ _ _ heq

/-- Fixed small environment used to instantiate the identity-resolver
claims. -/
def env0 : SysEnv :=
  ⟨some "u", none, "h", fun p => p, fun _ => false⟩

/-- Witness for C2 at a concrete environment and paths. -/
theorem get_collection_name_spec_witness :
    (get_collection_name env0 "/a").length = 63 ∧
    get_collection_name env0 "/a" = get_collection_name env0 "/a" ∧
    identityString env0 "/a" ≠ identityString env0 "/b" :=
  ⟨(get_collection_name_spec env0 "/a").2.1,
   (get_collection_name_spec env0 "/a").2.2.1 "/a" rfl,
   (get_collection_name_spec env0 "/a").2.2.2 "/b" (by decide)⟩

/-! ### Claims about the embedding-function registry -/

/-- C9: an unresolvable configured embedding-function name makes
`get_embedding_function` warn and return the default
`SentenceTransformerEmbeddingFunction()` instead of failing. -/
theorem get_embedding_function_fallback (reg : EFRegistry) (configs : Config)
    (h : reg.known configs.embedding_function = false) :
    get_embedding_function reg configs =
      (⟨"SentenceTransformerEmbeddingFunction", []⟩, true) := by
  simp [get_embedding_function, h]

/-- A registry that resolves no name. -/
def reg0 : EFRegistry := ⟨fun _ => false⟩

/-- A configuration naming an unknown embedding function. -/
def cfg0 : Config := ⟨"FakeEF", [], "/proj", false⟩

/-- Witness for C9. -/
theorem get_embedding_function_fallback_witness :
    reg0.known cfg0.embedding_function = false ∧
    get_embedding_function reg0 cfg0 =
      (⟨"SentenceTransformerEmbeddingFunction", []⟩, true) :=
  ⟨rfl, get_embedding_function_fallback reg0 cfg0 rfl⟩

/-! ### Claims about `verify_ef` -/

/-- C10: when the collection metadata records no embedding-function entry,
or records a falsy one, `verify_ef` returns `True` no matter which
embedding function is configured. -/
theorem verify_ef_skips_unrecorded (c : Collection) (configs : Config)
    (h : mget c.metadata "embedding_function" = none ∨
      ∃ v, mget c.metadata "embedding_function" = some v ∧ v.truthy = false) :
    (verify_ef c configs).1 = true := by
  have ht : truthyOpt (mget c.metadata "embedding_function") = false := by
    rcases h with h | ⟨v, hv, htv⟩
    · simp [truthyOpt, h]
    · simp [truthyOpt, hv, htv]
  simp only [verify_ef]
  rw [ht]
  simp only [Bool.false_and, Bool.false_eq_true, if_false]
  split <;> rfl

/-- A collection recording no embedding function. -/
def collNoEF : Collection := ⟨"c", [("path", .str "/x")], []⟩

/-- Witness for C10. -/
theorem verify_ef_skips_unrecorded_witness :
    (verify_ef collNoEF cfg0).1 = true :=
  verify_ef_skips_unrecorded collNoEF cfg0 (Or.inl (by decide))

/-- A collection whose recorded embedding function is the empty string. -/
def collEmptyEF : Collection := ⟨"c", [("embedding_function", .str "")], []⟩

/-- A collection whose recorded embedding params are the empty dict while
the recorded embedding-function name matches the default configuration. -/
def collEmptyEP : Collection :=
  ⟨"c", [("embedding_function", .str "SentenceTransformerEmbeddingFunction"),
    ("embedding_params", .dict [])], []⟩

/-- A configuration with non-empty embedding params. -/
def cfgParams : Config :=
  ⟨"SentenceTransformerEmbeddingFunction", [("a", "1")], "/proj", false⟩

/-- C4 counterexample.  First part: with a recorded embedding function that
is the empty string, the record differs from the configured name and yet
`verify_ef` returns `True` with no warning — the claimed `False` result
does not happen, because the source guards the comparison behind Python
truthiness of the recorded value.  Second part: with agreeing names and
recorded embedding params that are the empty dict, the recorded params
differ from the configured ones and yet no compatibility warning is
emitted, for the same truthiness reason. -/
theorem verify_ef_differs_counterexample :
    (mget collEmptyEF.metadata "embedding_function" ≠
       some (MetaVal.str cfg0.embedding_function) ∧
     verify_ef collEmptyEF cfg0 = (true, false)) ∧
    (mget collEmptyEP.metadata "embedding_function" =
       some (MetaVal.str cfgParams.embedding_function) ∧
     mget collEmptyEP.metadata "embedding_params" ≠
       some (MetaVal.dict cfgParams.embedding_params) ∧
     verify_ef collEmptyEP cfgParams = (true, false)) := by
  exact ⟨⟨by decide, rfl⟩, by decide, by decide, rfl⟩

/-- C4 (amended): when the recorded embedding function is present and
truthy and differs from the configured one, `verify_ef` returns `False`;
when the name check passes (name recorded as equal, or absent/falsy) and
the recorded embedding params are present, truthy and differ from the
configured ones, it returns `True` and emits the compatibility warning. -/
theorem verify_ef_spec (c : Collection) (configs : Config) :
    (truthyOpt (mget c.metadata "embedding_function") = true →
     mget c.metadata "embedding_function" ≠
       some (MetaVal.str configs.embedding_function) →
     verify_ef c configs = (false, false)) ∧
    ((truthyOpt (mget c.metadata "embedding_function") = false ∨
      mget c.metadata "embedding_function" =
        some (MetaVal.str configs.embedding_function)) →
     truthyOpt (mget c.metadata "embedding_params") = true →
     mget c.metadata "embedding_params" ≠
       some (MetaVal.dict configs.embedding_params) →
     verify_ef c configs = (true, true)) := by
  simp only [verify_ef]
  constructor
  · intro h1 h2
    rw [h1]
    simp [h2]
  · rintro (h | h) hp hne
    · rw [h]
      simp [hp, hne]
    · rw [h]
      simp [hp, hne]

/-- A collection recording a different embedding function. -/
def collOtherEF : Collection := ⟨"c", [("embedding_function", .str "OtherEF")], []⟩

/-- A collection recording different embedding params and no function. -/
def collOtherEP : Collection :=
  ⟨"c", [("embedding_params", .dict [("a", "1")])], []⟩

/-- Witness for the amended C4 at concrete collections. -/
theorem verify_ef_spec_witness :
    verify_ef collOtherEF cfg0 = (false, false) ∧
    verify_ef collOtherEP cfg0 = (true, true) :=
  ⟨(verify_ef_spec collOtherEF cfg0).1 (by decide) (by decide),
   (verify_ef_spec collOtherEP cfg0).2 (Or.inl (by decide)) (by decide) (by decide)⟩

/-! ### Claims about the Chunking Engine -/

theorem chunkOverlap_lt (size : Nat) (r : ℚ) (hs : 0 < size) (h1 : r < 1) :
    chunkOverlap size r < size := by
  unfold chunkOverlap
  have hmul : ((size : ℚ)) * r < size := by
    nth_rewrite 2 [show ((size : ℚ)) = size * 1 by ring]
    exact mul_lt_mul_of_pos_left h1 (by exact_mod_cast hs)
  have hf : Int.floor ((size : ℚ) * r) < (size : ℤ) :=
    Int.floor_lt.mpr (by exact_mod_cast hmul)
  omega

/-- C5: `chunk_size <= 0` yields exactly one chunk equal to the whole
input; for `chunk_size > 0` and `overlap_ratio` in `[0, 1)`, windows of
`chunk_size` characters advance by `chunk_size - floor(chunk_size *
overlap_ratio)` (so consecutive windows nominally overlap by exactly
`floor(chunk_size * overlap_ratio)` characters), every input position is
inside some window, and each produced chunk is the window clamped to the
input length (so the final chunk may be shorter than `chunk_size`). -/
theorem chunk_spec (text : List Char) (chunk_size : Int) (overlap_ratio : ℚ) :
    (chunk_size ≤ 0 → chunk text chunk_size overlap_ratio = [text]) ∧
    (0 < chunk_size → 0 ≤ overlap_ratio → overlap_ratio < 1 →
      let size := chunk_size.toNat
      let ov := chunkOverlap size overlap_ratio
      let step := chunkStep size overlap_ratio
      let n := numChunks text.length step
      0 < step ∧
      step + ov = size ∧
      (chunk text chunk_size overlap_ratio).length = n ∧
      (∀ k, k < n →
        (chunk text chunk_size overlap_ratio)[k]? =
          some ((text.drop (k * step)).take size) ∧
        ((text.drop (k * step)).take size).length =
          min size (text.length - k * step)) ∧
      (∀ i, i < text.length →
        ∃ k, k < n ∧ k * step ≤ i ∧ i < k * step + size)) := by
  constructor
  · intro h
    simp [chunk, h]
  · intro hpos _ h1
    intro size ov step n
    have hs : 0 < size := by
      simp only [size]
      omega
    have hov : ov < size := chunkOverlap_lt size overlap_ratio hs h1
    have hstep : 0 < step := by
      simp only [step, chunkStep]
      omega
    have hstepsize : step ≤ size := by
      simp only [step, chunkStep]
      omega
    have hchunk : chunk text chunk_size overlap_ratio =
        (List.range n).map (fun k => (text.drop (k * step)).take size) := by
      simp only [chunk, if_neg (by omega : ¬chunk_size ≤ 0)]
    refine ⟨hstep, ?_, ?_, ?_, ?_⟩
    · simp only [step, chunkStep]
      omega
    · simp [hchunk]
    · intro k hk
      constructor
      · simp [hchunk, List.getElem?_map, List.getElem?_range hk]
      · simp
    · intro i hi
      refine ⟨i / step, ?_, Nat.div_mul_le_self i step, ?_⟩
      · have h2 : numChunks text.length step = (text.length - 1) / step + 1 := by
          unfold numChunks
          rw [show text.length + step - 1 = (text.length - 1) + step by omega,
            Nat.add_div_right _ hstep]
        have h3 : i / step ≤ (text.length - 1) / step :=
          Nat.div_le_div_right (by omega)
        simp only [n]
        omega
      · have h4 := Nat.div_add_mod i step
        have h5 := Nat.mod_lt i hstep
        have h6 := Nat.mul_comm (i / step) step
        omega

/-- Witness for C5 on a concrete five-character text. -/
theorem chunk_spec_witness :
    chunk "abcde".data (-1) (1 / 2 : ℚ) = ["abcde".data] ∧
    (chunk "abcde".data 2 (1 / 2 : ℚ)).length =
      numChunks ("abcde".data.length) (chunkStep 2 (1 / 2 : ℚ)) :=
  ⟨(chunk_spec "abcde".data (-1) (1 / 2 : ℚ)).1 (by norm_num),
   ((chunk_spec "abcde".data 2 (1 / 2 : ℚ)).2 (by norm_num) (by norm_num)
     (by norm_num)).2.2.1⟩

/-! ### Claims about `get_collection` and the `update` run -/

theorem classifyPaths_eq (isFile : String → Bool) (l : List String) :
    classifyPaths isFile l =
      ((l.filter isFile).toFinset, (l.filter (fun p => !isFile p)).toFinset) := by
  induction l with
  | nil => rfl
  | cons f rest ih =>
    rcases hf : isFile f with _ | _ <;>
      simp [classifyPaths, hf, ih, List.filter_cons, Prod.ext_iff]

theorem mem_classifyPaths_fst (isFile : String → Bool) (l : List String) (p : String) :
    p ∈ (classifyPaths isFile l).1 ↔ p ∈ l ∧ isFile p = true := by
  rw [classifyPaths_eq]
  simp [List.mem_filter]

theorem mem_classifyPaths_snd (isFile : String → Bool) (l : List String) (p : String) :
    p ∈ (classifyPaths isFile l).2 ↔ p ∈ l ∧ isFile p = false := by
  rw [classifyPaths_eq]
  simp [List.mem_filter]

theorem processFiles_removed (hadPrior : String → Bool) (stats : SyncStats)
    (l : List String) : (processFiles hadPrior stats l).removed = stats.removed := by
  induction l generalizing stats with
  | nil => rfl
  | cons f fs ih =>
    simp only [processFiles]
    rw [ih]
    split <;> rfl

/-- Whether a store operation is the bulk delete. -/
def isDeleteOp : StoreOp → Bool
  | .delete _ => true
  | _ => false

/-- Concrete system environment: user `u` on host `h`; `/live` is the only
path present on disk. -/
def env1 : SysEnv := ⟨some "u", none, "h", fun p => p, fun p => p == "/live"⟩

/-- Concrete configuration for the update-run witnesses. -/
def cfg1 : Config := ⟨"SentenceTransformerEmbeddingFunction", [], "/proj", false⟩

/-- Concrete collection owned by the current identity, holding one live and
one orphaned document. -/
def coll1 : Collection :=
  ⟨get_collection_name env1 "/proj",
   [("path", .str "/proj"), ("hostname", .str "h"),
    ("created-by", .str "VectorCode"), ("username", .str "u"),
    ("embedding_function", .str "SentenceTransformerEmbeddingFunction")],
   [[("path", .str "/live")], [("path", .str "/gone")]]⟩

/-- Store holding exactly `coll1`. -/
def store1 : Store := [coll1]

/-- Looking up `cfg1` in `store1` finds `coll1`. -/
theorem store1_lookup : get_collection env1 store1 cfg1 false = (store1, .ok coll1) := by
  simp only [get_collection, Bool.not_false, if_true, storeFind, store1, List.find?]
  have h : (coll1.name ==
      get_collection_name env1 (env1.absPath cfg1.project_root)) = true := by
    rw [show env1.absPath cfg1.project_root = "/proj" from rfl,
      show coll1.name = get_collection_name env1 "/proj" from rfl]
    exact beq_self_eq_true _
  rw [h]

/-- `verify_ef` accepts `coll1` under `cfg1`. -/
theorem coll1_verify : (verify_ef coll1 cfg1).1 = true := by decide

/-- C1: in an uninterrupted update run, a stored path is classified live
exactly when `isfile` holds of it and orphaned otherwise; the reported
`removed` count equals the number of orphaned paths; and any delete issued
to the store targets exactly the orphaned paths, never a path that still
exists on disk. -/
theorem update_orphans_spec (env : SysEnv) (hadPrior : String → Bool)
    (configs : Config) (store : Store) (collection : Collection)
    (hget : get_collection env store configs false = (store, .ok collection))
    (hef : (verify_ef collection configs).1 = true) :
    (∀ p, (p ∈ (classifyPaths env.isFile (storedPaths collection)).1 ↔
            p ∈ storedPaths collection ∧ env.isFile p = true) ∧
          (p ∈ (classifyPaths env.isFile (storedPaths collection)).2 ↔
            p ∈ storedPaths collection ∧ env.isFile p = false)) ∧
    (∃ s, (update env hadPrior none configs store).stats = some s ∧
      s.removed = (classifyPaths env.isFile (storedPaths collection)).2.card) ∧
    (∀ ps, StoreOp.delete ps ∈ (update env hadPrior none configs store).ops →
      ps.toFinset = (classifyPaths env.isFile (storedPaths collection)).2 ∧
      ∀ p ∈ ps, env.isFile p = false) := by
  refine ⟨fun p => ⟨mem_classifyPaths_fst env.isFile _ p,
    mem_classifyPaths_snd env.isFile _ p⟩, ?_, ?_⟩
  · simp only [update, hget, hef, Bool.not_true, Bool.false_eq_true, if_false]
    split
    · exact ⟨_, rfl, processFiles_removed _ _ _⟩
    · exact ⟨_, rfl, processFiles_removed _ _ _⟩
  · intro ps hmem
    simp only [update, hget, hef, Bool.not_true, Bool.false_eq_true, if_false] at hmem
    split at hmem
    · simp only [List.mem_cons, List.mem_append, List.mem_map, List.mem_singleton,
        List.not_mem_nil, or_false, false_or, reduceCtorEq] at hmem
      rcases hmem with ⟨a, _, hfp⟩ | hdel
      · exact absurd hfp (by simp)
      · obtain rfl : ps = ((classifyPaths env.isFile (storedPaths collection)).2).sort
            (· ≤ ·) := by injection hdel
        refine ⟨by simp [Finset.sort_toFinset], fun p hp => ?_⟩
        rw [Finset.mem_sort] at hp
        exact ((mem_classifyPaths_snd env.isFile _ p).mp hp).2
    · simp only [List.mem_cons, List.mem_map, List.not_mem_nil, or_false,
        reduceCtorEq, false_or] at hmem
      rcases hmem with ⟨a, _, hfp⟩
      exact absurd hfp (by simp)

/-- C6: a run cancelled while file tasks are in flight returns a non-zero
status and issues no orphan-pruning delete. -/
theorem update_cancelled_spec (env : SysEnv) (hadPrior : String → Bool) (k : Nat)
    (configs : Config) (store : Store) :
    (update env hadPrior (some k) configs store).rc = 1 ∧
    ∀ ps, StoreOp.delete ps ∉ (update env hadPrior (some k) configs store).ops := by
  rcases hg : get_collection env store configs false with ⟨store1, exc⟩
  cases exc with
  | error e => simp [update, hg]
  | ok c =>
    rcases hv : (verify_ef c configs).1 with _ | _
    · simp [update, hg, hv]
    · refine ⟨by simp [update, hg, hv], fun ps hmem => ?_⟩
      simp only [update, hg, hv, Bool.not_true, Bool.false_eq_true, if_false,
        List.mem_cons, reduceCtorEq, false_or] at hmem
      have h2 := List.take_subset k _ (by simpa using hmem)
      simp at h2

/-- C7: when no collection exists under the computed id and creation is not
requested, `get_collection` fails with the not-found error and the update
run stops with return code 1 before reading metadata, processing any file,
or issuing any store mutation (the store is returned unchanged and the
operation trace is empty). -/
theorem update_missing_collection_spec (env : SysEnv) (hadPrior : String → Bool)
    (cancelAfter : Option Nat) (configs : Config) (store : Store)
    (h : storeFind store
      (get_collection_name env (env.absPath configs.project_root)) = none) :
    get_collection env store configs false = (store, .error .notFound) ∧
    update env hadPrior cancelAfter configs store = ⟨1, store, [], none⟩ := by
  have hg : get_collection env store configs false = (store, .error .notFound) := by
    simp [get_collection, h]
  exact ⟨hg, by simp [update, hg]⟩

/-- Witness for C7: the empty store holds no collection at all. -/
theorem update_missing_collection_spec_witness :
    get_collection env1 [] cfg1 false = ([], .error .notFound) ∧
    update env1 (fun _ => true) none cfg1 [] = ⟨1, [], [], none⟩ :=
  update_missing_collection_spec env1 (fun _ => true) none cfg1 [] rfl

theorem filter_isDeleteOp_map_fileProcess (l : List String) :
    (l.map StoreOp.fileProcess).filter isDeleteOp = [] := by
  induction l with
  | nil => rfl
  | cons a l ih => simp [List.filter, isDeleteOp, ih]

theorem no_delete_in_processing (rs : List String) (ms : List String) :
    StoreOp.delete rs ∉ StoreOp.getMeta :: ms.map StoreOp.fileProcess := by
  intro hmem
  rcases List.mem_cons.mp hmem with h | h
  · exact StoreOp.noConfusion h
  · rcases List.mem_map.mp h with ⟨a, _, hfp⟩
    exact StoreOp.noConfusion hfp

theorem delete_last_aux (pre : List StoreOp) (qs ps : List String) :
    ∀ l1 l2 : List StoreOp, (∀ rs, StoreOp.delete rs ∉ pre) →
    pre ++ [StoreOp.delete qs] = l1 ++ StoreOp.delete ps :: l2 → l2 = [] := by
  induction pre with
  | nil =>
    intro l1 l2 _ h
    cases l1 with
    | nil =>
      injection h with h1 h2
      exact h2.symm
    | cons b t =>
      injection h with h1 h2
      exact absurd h2.symm (by simp)
  | cons x pre ih =>
    intro l1 l2 hpre h
    cases l1 with
    | nil =>
      injection h with h1 h2
      subst h1
      exact absurd (List.mem_cons_self _ _) (hpre ps)
    | cons b t =>
      injection h with h1 h2
      exact ih t l2 (fun rs hr => hpre rs (List.mem_cons_of_mem x hr)) h2

/-- C8: in every update run the store delete is issued at most once, only
as the final store operation (hence strictly after every per-file
processing task), and the single bulk delete covers exactly the orphaned
paths collected during diffing. -/
theorem update_delete_ordering_spec (env : SysEnv) (hadPrior : String → Bool)
    (cancelAfter : Option Nat) (configs : Config) (store : Store) :
    ((update env hadPrior cancelAfter configs store).ops.filter isDeleteOp).length ≤ 1 ∧
    (∀ l1 ps l2,
      (update env hadPrior cancelAfter configs store).ops =
        l1 ++ StoreOp.delete ps :: l2 → l2 = []) ∧
    (∀ collection, get_collection env store configs false = (store, .ok collection) →
      ∀ ps, StoreOp.delete ps ∈ (update env hadPrior cancelAfter configs store).ops →
        ps = ((classifyPaths env.isFile (storedPaths collection)).2).sort (· ≤ ·)) := by
  obtain ⟨store1, exc, hg⟩ :
      ∃ s e, get_collection env store configs false = (s, e) := ⟨_, _, rfl⟩
  have hstep : ∀ ops : List StoreOp,
      (update env hadPrior cancelAfter configs store).ops = ops →
      (∀ rs, StoreOp.delete rs ∉ ops) →
      (((update env hadPrior cancelAfter configs store).ops.filter isDeleteOp).length ≤ 1 ∧
       (∀ l1 ps l2,
         (update env hadPrior cancelAfter configs store).ops =
           l1 ++ StoreOp.delete ps :: l2 → l2 = []) ∧
       (∀ collection,
         get_collection env store configs false = (store, .ok collection) →
         ∀ ps, StoreOp.delete ps ∈ (update env hadPrior cancelAfter configs store).ops →
           ps = ((classifyPaths env.isFile (storedPaths collection)).2).sort (· ≤ ·))) := by
    intro ops hops hnd
    refine ⟨?_, ?_, ?_⟩
    · rw [hops]
      have hfil : ops.filter isDeleteOp = [] := by
        rw [List.filter_eq_nil_iff]
        intro a ha
        cases a with
        | getMeta => simp [isDeleteOp]
        | fileProcess p => simp [isDeleteOp]
        | delete rs => exact absurd ha (hnd rs)
      simp [hfil]
    · intro l1 ps l2 h
      rw [hops] at h
      exact absurd (by rw [h]; simp : StoreOp.delete ps ∈ ops) (hnd ps)
    · intro collection _ ps hmem
      rw [hops] at hmem
      exact absurd hmem (hnd ps)
  cases exc with
  | error e =>
    have hops : (update env hadPrior cancelAfter configs store).ops = [] := by
      simp [update, hg]
    exact hstep [] hops (by simp)
  | ok c =>
    rcases hv : (verify_ef c configs).1 with _ | _
    · have hops : (update env hadPrior cancelAfter configs store).ops = [] := by
        simp [update, hg, hv]
      exact hstep [] hops (by simp)
    · cases cancelAfter with
      | some k =>
        have hops : (update env hadPrior (some k) configs store).ops =
            StoreOp.getMeta ::
              ((((classifyPaths env.isFile (storedPaths c)).1.sort (· ≤ ·)).take k).map
                StoreOp.fileProcess) := by
          simp only [update, hg, hv, Bool.not_true, Bool.false_eq_true, if_false]
        exact hstep _ hops (fun rs => no_delete_in_processing rs _)
      | none =>
        by_cases hc : (classifyPaths env.isFile (storedPaths c)).2.card ≠ 0
        · have hops : (update env hadPrior none configs store).ops =
              StoreOp.getMeta ::
                (((classifyPaths env.isFile (storedPaths c)).1.sort (· ≤ ·)).map
                  StoreOp.fileProcess ++
                [StoreOp.delete
                  (((classifyPaths env.isFile (storedPaths c)).2).sort (· ≤ ·))]) := by
            simp only [update, hg, hv, Bool.not_true, Bool.false_eq_true, if_false]
            rw [if_pos hc]
            rfl
          refine ⟨?_, ?_, ?_⟩
          · rw [hops]
            simp [List.filter_append, List.filter, isDeleteOp,
              filter_isDeleteOp_map_fileProcess]
          · intro l1 ps l2 h
            rw [hops, ← List.cons_append] at h
            exact delete_last_aux _ _ ps l1 l2 (fun rs => no_delete_in_processing rs _) h
          · intro collection hcol ps hmem
            rw [hg] at hcol
            injection hcol with hs he
            injection he with hce
            subst hce
            rw [hops] at hmem
            simp only [List.mem_cons, List.mem_append, List.mem_map,
              List.mem_singleton, List.not_mem_nil, or_false, false_or,
              reduceCtorEq] at hmem
            rcases hmem with ⟨a, _, hfp⟩ | hdel
            · exact absurd hfp (by simp)
            · injection hdel
        · have hops : (update env hadPrior none configs store).ops =
              StoreOp.getMeta ::
                ((classifyPaths env.isFile (storedPaths c)).1.sort (· ≤ ·)).map
                  StoreOp.fileProcess := by
            simp only [update, hg, hv, Bool.not_true, Bool.false_eq_true, if_false]
            rw [if_neg hc]
          exact hstep _ hops (fun rs => no_delete_in_processing rs _)

/-- A collection stored under the id computed for `cfg1` but stamped by a
different creator, user and host. -/
def collForeign : Collection :=
  ⟨get_collection_name env1 "/proj",
   [("path", .str "/proj"), ("hostname", .str "elsewhere"),
    ("created-by", .str "SomethingElse"), ("username", .str "someone")],
   []⟩

/-- Store holding exactly the foreign collection. -/
def storeForeign : Store := [collForeign]

/-- Looking up the computed id in `storeForeign` finds the foreign
collection. -/
theorem storeForeign_lookup :
    storeFind storeForeign
      (get_collection_name env1 (env1.absPath cfg1.project_root)) =
      some collForeign := by
  simp only [storeFind, storeForeign, List.find?]
  have h : (collForeign.name ==
      get_collection_name env1 (env1.absPath cfg1.project_root)) = true := by
    rw [show env1.absPath cfg1.project_root = "/proj" from rfl,
      show collForeign.name = get_collection_name env1 "/proj" from rfl]
    exact beq_self_eq_true _
  rw [h]

/-- C3 counterexample: on the lookup path (`make_if_missing = False`),
`get_collection` returns a collection whose owner metadata mismatches the
current identity without raising the collision error — the owner check
runs only on the get-or-create path. -/
theorem get_collection_lookup_skips_owner_check :
    ownerMismatch env1 collForeign.metadata = true ∧
    get_collection env1 storeForeign cfg1 false = (storeForeign, .ok collForeign) := by
  refine ⟨by decide, ?_⟩
  simp only [get_collection, Bool.not_false, if_true, storeForeign_lookup]

/-- C3 (amended): only the get-or-create path (`make_if_missing = True`)
verifies the owner metadata: there a mismatch fails with the collision
error and leaves the store unchanged (the foreign collection is neither
mutated nor deleted); the plain lookup path returns the stored collection
without any ownership verification. -/
theorem get_collection_collision_spec (env : SysEnv) (store : Store)
    (configs : Config) (c : Collection)
    (hfind : storeFind store
      (get_collection_name env (env.absPath configs.project_root)) = some c) :
    (ownerMismatch env c.metadata = true →
      get_collection env store configs true = (store, .error .collision)) ∧
    get_collection env store configs false = (store, .ok c) := by
  constructor
  · intro hmis
    simp [get_collection, hfind, hmis]
  · simp [get_collection, hfind]

/-- Witness for the amended C3 at the concrete foreign collection. -/
theorem get_collection_collision_spec_witness :
    get_collection env1 storeForeign cfg1 true = (storeForeign, .error .collision) ∧
    get_collection env1 storeForeign cfg1 false = (storeForeign, .ok collForeign) :=
  ⟨(get_collection_collision_spec env1 storeForeign cfg1 collForeign
      storeForeign_lookup).1 (by decide),
   (get_collection_collision_spec env1 storeForeign cfg1 collForeign
      storeForeign_lookup).2⟩

/-- The concrete classification of `coll1`: `/live` is live, `/gone` is
orphaned. -/
theorem classify1 :
    classifyPaths env1.isFile (storedPaths coll1) = ({"/live"}, {"/gone"}) := by
  decide

theorem sortLive1 : ({"/live"} : Finset String).sort (· ≤ ·) = ["/live"] :=
  Finset.sort_singleton _ _

theorem sortGone1 : ({"/gone"} : Finset String).sort (· ≤ ·) = ["/gone"] :=
  Finset.sort_singleton _ _

theorem hcard1 : (classifyPaths env1.isFile (storedPaths coll1)).2.card ≠ 0 := by
  rw [classify1]
  decide

/-- The concrete trace of the uninterrupted update run on `store1`. -/
theorem run1_ops : (update env1 (fun _ => true) none cfg1 store1).ops =
    [StoreOp.getMeta, StoreOp.fileProcess "/live", StoreOp.delete ["/gone"]] := by
  simp only [update, store1_lookup, coll1_verify, Bool.not_true,
    Bool.false_eq_true, if_false]
  rw [if_pos hcard1]
  simp [classify1, sortLive1, sortGone1]

/-- Witness for C1 on the concrete run: the reported `removed` equals the
orphan count and the orphan classification of `/gone` holds. -/
theorem update_orphans_spec_witness :
    (∃ s, (update env1 (fun _ => true) none cfg1 store1).stats = some s ∧
      s.removed = (classifyPaths env1.isFile (storedPaths coll1)).2.card) ∧
    ("/gone" ∈ (classifyPaths env1.isFile (storedPaths coll1)).2 ↔
      "/gone" ∈ storedPaths coll1 ∧ env1.isFile "/gone" = false) :=
  ⟨(update_orphans_spec env1 (fun _ => true) cfg1 store1 coll1 store1_lookup
      coll1_verify).2.1,
   ((update_orphans_spec env1 (fun _ => true) cfg1 store1 coll1 store1_lookup
      coll1_verify).1 "/gone").2⟩

/-- Witness for C8 on the concrete run: the delete is unique, last, and
targets exactly the orphan `/gone`. -/
theorem update_delete_ordering_spec_witness :
    ((update env1 (fun _ => true) none cfg1 store1).ops.filter isDeleteOp).length ≤ 1 ∧
    ([] : List StoreOp) = [] ∧
    ["/gone"] = ((classifyPaths env1.isFile (storedPaths coll1)).2).sort (· ≤ ·) :=
  ⟨(update_delete_ordering_spec env1 (fun _ => true) none cfg1 store1).1,
   (update_delete_ordering_spec env1 (fun _ => true) none cfg1 store1).2.1
     [StoreOp.getMeta, StoreOp.fileProcess "/live"] ["/gone"] []
     (by rw [run1_ops]; rfl),
   (update_delete_ordering_spec env1 (fun _ => true) none cfg1 store1).2.2 coll1
     store1_lookup ["/gone"] (by rw [run1_ops]; simp)⟩

end VectorCode
